import Mathlib

/-!
Verification of the graphql-go front-end: type references and their
resolution (src/types/types.go), the type-reference parser
(ParseType, internal/common), literal values, the query-document
parser (internal/query/query.go) and the top-level entry points.

Go machine details are modelled explicitly: a `nil` result is `Option.none`,
a panic is the error branch of `Except`, and the rune constants of
text/scanner keep their Go values.
-/

namespace GraphQL

/-- Source location, from errors.Location (fields Line and Column, Go ints). -/
structure Location where
  line : Int
  column : Int
deriving DecidableEq

/-- Structured diagnostic, the projection of errors.QueryError used by this
development: Message, Rule and Locations. -/
structure QueryError where
  message : String
  rule : String
  locations : List Location
deriving DecidableEq

/-- types.Ident: a name together with the location where it was read. -/
structure Ident where
  name : String
  loc : Location
deriving DecidableEq

/-- The kind of a declared (named) type: the six NamedType variants of
src/types/types.go (Scalar, Object, Interface, Union, Enum, InputObject). -/
inductive NamedKind where
  | scalar
  | object
  | iface
  | union
  | enum
  | inputObject
deriving DecidableEq

/-- A declared type as seen by ResolveType: the default branch of its switch
returns any non-wrapper, non-TypeName type unchanged, and the claims only
inspect the declaration's kind and name (its String method returns t.Name
for all six variants). -/
structure NamedDecl where
  kind : NamedKind
  name : String
deriving DecidableEq

/-- types.Type: the type-reference tree.  `list` is *types.List, `nonNull`
is *types.NonNull, `typeName` is an unresolved *types.TypeName, and `named`
covers the already-resolved declared types (the default case of the
ResolveType switch). -/
inductive Ty where
  | list (ofType : Ty)
  | nonNull (ofType : Ty)
  | typeName (ident : Ident)
  | named (d : NamedDecl)
deriving DecidableEq

/-- The String method of types.Type.  (*List).String is "[" ++ inner ++ "]",
(*NonNull).String is inner ++ "!", each declared type prints as its name, and
(*TypeName).String panics ("TypeName needs to be resolved to actual type"),
modelled as `none`. -/
def Ty.str : Ty → Option String
  | .list t => (Ty.str t).map (fun s => "[" ++ s ++ "]")
  | .nonNull t => (Ty.str t).map (fun s => s ++ "!")
  | .typeName _ => none
  | .named d => some d.name

/-- types.Resolver: func(name string) Type, where a Go nil is `none`. -/
def Resolver : Type := String → Option Ty

/-- The message built by errors.Errorf("Unknown type %q.", name): %q wraps
an identifier in double quotes. -/
def unknownTypeMessage (name : String) : String :=
  "Unknown type \"" ++ name ++ "\"."

/-- types.ResolveType: descends through List and NonNull wrappers, replaces a
TypeName leaf by the resolver's answer for its name (failing with a
rule-tagged error when the resolver returns nil), and returns any other type
unchanged. -/
def ResolveType : Ty → Resolver → Except QueryError Ty
  | .list t, resolver =>
    match ResolveType t resolver with
    | .error e => .error e
    | .ok ofType => .ok (.list ofType)
  | .nonNull t, resolver =>
    match ResolveType t resolver with
    | .error e => .error e
    | .ok ofType => .ok (.nonNull ofType)
  | .typeName i, resolver =>
    match resolver i.name with
    | none =>
      .error ⟨unknownTypeMessage i.name, "KnownTypeNames", [i.loc]⟩
    | some refT => .ok refT
  | .named d, _ => .ok (.named d)

/-- types.Schema, restricted to the Types table (map[string]NamedType),
modelled as an association list looked up by name. -/
structure Schema where
  types : List (String × Ty)
deriving DecidableEq

/-- Schema.Resolve: `return s.Types[name]`, a single map lookup (Go maps
yield nil for an absent key). -/
def Schema.Resolve (s : Schema) (name : String) : Option Ty :=
  (s.types.find? (fun p => p.1 == name)).map (fun p => p.2)

/-- The wrapper spine of a reference tree: the List/NonNull nesting read
from the outside in.  `true` marks a List wrapper, `false` a NonNull one. -/
def Ty.wrapperSpine : Ty → List Bool
  | .list t => true :: Ty.wrapperSpine t
  | .nonNull t => false :: Ty.wrapperSpine t
  | .typeName _ => []
  | .named _ => []

/-- The leaf under the List/NonNull wrappers of a reference tree. -/
def Ty.leaf : Ty → Ty
  | .list t => Ty.leaf t
  | .nonNull t => Ty.leaf t
  | t => t

/-- Number of List/NonNull wrappers around the leaf. -/
def Ty.wrapperDepth : Ty → Nat
  | .list t => Ty.wrapperDepth t + 1
  | .nonNull t => Ty.wrapperDepth t + 1
  | _ => 0

/-- Fuel-counted variant of ResolveType, used to bound its recursion: one
unit of fuel is spent on each List/NonNull wrapper, a leaf spends none, and
exhausted fuel answers `none`. -/
def ResolveTypeFuel : Nat → Ty → Resolver → Option (Except QueryError Ty)
  | fuel + 1, .list t, resolver =>
    (ResolveTypeFuel fuel t resolver).map
      (fun r =>
        match r with
        | .error e => .error e
        | .ok ofType => .ok (.list ofType))
  | fuel + 1, .nonNull t, resolver =>
    (ResolveTypeFuel fuel t resolver).map
      (fun r =>
        match r with
        | .error e => .error e
        | .ok ofType => .ok (.nonNull ofType))
  | _, .typeName i, resolver =>
    some (match resolver i.name with
      | none =>
        .error ⟨unknownTypeMessage i.name, "KnownTypeNames", [i.loc]⟩
      | some refT => .ok refT)
  | _, .named d, _ => some (.ok (.named d))
  | 0, .list _, _ => none
  | 0, .nonNull _, _ => none

/-! ### The token stream and the lexer interface

The Lexer itself (internal/common/lexer.go) is not under src/; only its
callers are.  Per the spec (§4.1) it produces tokens with locations over
text/scanner and exposes lookahead, consume-with-expectation (failing with
a one-location diagnostic on mismatch, raised as a panic that the top-level
CatchSyntaxError converts to an error result), and location query.  We model
the stream of tokens directly; lexer panics are the error branch of the
`P` result. -/

/-- Go text/scanner rune constant EOF. -/
def scannerEOF : Int := -1

/-- Go text/scanner rune constant Ident. -/
def scannerIdent : Int := -2

/-- Go text/scanner rune constant Int. -/
def scannerInt : Int := -3

/-- Go text/scanner rune constant Float. -/
def scannerFloat : Int := -4

/-- Go text/scanner rune constant String. -/
def scannerString : Int := -6

/-- The rune of a punctuation character. -/
def rune (c : Char) : Int := Int.ofNat c.toNat

/-- One token of the shared lexical grammar: an identifier, a punctuation
rune, or a scalar literal token. -/
inductive TokenKind where
  | identTok (name : String)
  | punct (c : Char)
  | intTok (text : String)
  | floatTok (text : String)
  | stringTok (text : String)
deriving DecidableEq

/-- The rune reported for a token by the scanner (what l.Peek() compares). -/
def TokenKind.rune : TokenKind → Int
  | .identTok _ => scannerIdent
  | .punct c => GraphQL.rune c
  | .intTok _ => scannerInt
  | .floatTok _ => scannerFloat
  | .stringTok _ => scannerString

/-- A token with the location where it starts. -/
structure Token where
  kind : TokenKind
  loc : Location
deriving DecidableEq

/-- Modelled from the spec: the Lexer (internal/common/lexer.go) is not
under src/.  We model it as the remaining token stream. -/
structure Lexer where
  tokens : List Token
deriving DecidableEq

/-- l.Peek(): the rune of the next token, or EOF. -/
def Lexer.peek : Lexer → Int
  | ⟨[]⟩ => scannerEOF
  | ⟨t :: _⟩ => t.kind.rune

/-- l.Location(): the location of the next token (a default location at
end of input). -/
def Lexer.location : Lexer → Location
  | ⟨[]⟩ => ⟨0, 0⟩
  | ⟨t :: _⟩ => t.loc

/-- The result of running a parsing step: either a lexer panic converted to
a structured diagnostic (as CatchSyntaxError does at the entry points), or
a value together with the rest of the stream. -/
def P (α : Type) : Type := Lexer → Except QueryError (α × Lexer)

/-- Modelled from the spec: l.SyntaxError panics with a one-location
structured diagnostic; the panic is our error branch. -/
def SynError {α : Type} (msg : String) : P α := fun l =>
  .error ⟨msg, "", [l.location]⟩

/-- Fuel exhaustion of the fuel-counted parsers, reported as a diagnostic;
every claim is stated so that it does not depend on this branch. -/
def outOfFuel {α : Type} : P α := fun l =>
  .error ⟨"out of fuel", "", [l.location]⟩

/-- l.ConsumeToken(expected): consume one punctuation token, failing with a
SyntaxError when the next token is not the expected rune. -/
def ConsumeToken (expected : Char) : P Unit := fun l =>
  match l.tokens with
  | t :: ts =>
    if t.kind.rune = rune expected then .ok ((), ⟨ts⟩)
    else SynError ("unexpected token") l
  | [] => SynError ("unexpected EOF") l

/-- l.ConsumeIdentWithLoc(): consume an identifier token, returning it with
its location. -/
def ConsumeIdentWithLoc : P Ident := fun l =>
  match l.tokens with
  | ⟨.identTok n, loc⟩ :: ts => .ok (⟨n, loc⟩, ⟨ts⟩)
  | _ => SynError ("expected identifier") l

/-- l.ConsumeIdent(): consume an identifier token, returning its name. -/
def ConsumeIdent : P String := fun l =>
  match ConsumeIdentWithLoc l with
  | .error e => .error e
  | .ok (i, l2) => .ok (i.name, l2)

/-- l.ConsumeKeyword(keyword): consume an identifier and require it to be
the given keyword. -/
def ConsumeKeyword (keyword : String) : P Unit := fun l =>
  match ConsumeIdentWithLoc l with
  | .error e => .error e
  | .ok (i, l2) =>
    if i.name = keyword then .ok ((), l2)
    else SynError ("expected keyword") l

/-- l.DescComment(): the token model carries no comment tokens, so the
pending description is empty. -/
def DescComment : P String := fun l => .ok ("", l)

/-! ### The type-reference parser (common.ParseType, src/unnamed/part_001) -/

/-- The body of common.parseNullType with its mutual call to ParseType
abstracted as `parseTy`: a bracketed type becomes a List of the inner parse,
otherwise a bare name becomes an unresolved TypeName. -/
def parseNullTypeWith (parseTy : P Ty) : P Ty := fun l =>
  if l.peek = rune '[' then
    match ConsumeToken '[' l with
    | .error e => .error e
    | .ok (_, l2) =>
      match parseTy l2 with
      | .error e => .error e
      | .ok (ofType, l3) =>
        match ConsumeToken ']' l3 with
        | .error e => .error e
        | .ok (_, l4) => .ok (.list ofType, l4)
  else
    match ConsumeIdentWithLoc l with
    | .error e => .error e
    | .ok (i, l2) => .ok (.typeName i, l2)

/-- The body of common.ParseType with the recursion abstracted: parse a
null-permitting type, then wrap it in a single NonNull when (and only when)
the immediately following token is a bang. -/
def parseTypeStep (inner : P Ty) : P Ty := fun l =>
  match parseNullTypeWith inner l with
  | .error e => .error e
  | .ok (t, l2) =>
    if l2.peek = rune '!' then
      match ConsumeToken '!' l2 with
      | .error e => .error e
      | .ok (_, l3) => .ok (.nonNull t, l3)
    else .ok (t, l2)

/-- common.ParseType (src/unnamed/part_001), fuel-counted: fuel bounds the
bracket nesting depth. -/
def ParseTypeF : Nat → P Ty
  | 0 => parseTypeStep outOfFuel
  | fuel + 1 => parseTypeStep (ParseTypeF fuel)

/-- common.parseNullType, fuel-counted. -/
def parseNullTypeF : Nat → P Ty
  | 0 => parseNullTypeWith outOfFuel
  | fuel + 1 => parseNullTypeWith (ParseTypeF fuel)

/-! ### Literals and their runtime values (src/types/types.go) -/

/-- A Go runtime value as produced by Literal.Value: nil, a slice, a
string-keyed map, or an opaque host-supplied value (the contents of the
variable-binding map are arbitrary interface values). -/
inductive GoValue where
  | null
  | list (entries : List GoValue)
  | object (fields : List (String × GoValue))
  | host (tag : String)

/-- types.Literal: BasicLit (scalar token kind and text), ListLit,
ObjectLit (fields are ObjectLitField name/value pairs), NullLit, and
Variable, each carrying its location. -/
inductive Lit where
  | basic (tokType : Int) (text : String) (loc : Location)
  | listLit (entries : List Lit) (loc : Location)
  | objectLit (fields : List (Ident × Lit)) (loc : Location)
  | nullLit (loc : Location)
  | varRef (name : String) (loc : Location)

/-- Assignment into a Go map modelled as an association list: overwrite the
existing key or append. -/
def mapSet (m : List (String × GoValue)) (k : String) (v : GoValue) :
    List (String × GoValue) :=
  match m with
  | [] => [(k, v)]
  | (k2, v2) :: rest =>
    if k2 = k then (k, v) :: rest else (k2, v2) :: mapSet rest k v

mutual

/-- Literal.Value(vars) of src/types/types.go.  (*BasicLit).Value
unconditionally panics — its entire scalar conversion is commented out and
replaced by panic("literal value not implemented in static context") —
modelled as the error branch.  (*ListLit).Value collects its entries'
values in order, (*ObjectLit).Value builds a name-to-value map,
(*NullLit).Value returns nil, and Variable.Value returns vars[v.Name]
(nil for an absent key, never an error). -/
def Lit.value (vars : String → Option GoValue) : Lit → Except String GoValue
  | .basic _ _ _ => .error ("literal value not implemented in static context")
  | .listLit entries _ =>
    match valueEntries vars entries with
    | .error e => .error e
    | .ok vs => .ok (.list vs)
  | .objectLit fields _ =>
    match valueFields vars [] fields with
    | .error e => .error e
    | .ok fs => .ok (.object fs)
  | .nullLit _ => .ok .null
  | .varRef name _ => .ok ((vars name).getD .null)

/-- The entry loop of (*ListLit).Value: each entry's value, in order. -/
def valueEntries (vars : String → Option GoValue) :
    List Lit → Except String (List GoValue)
  | [] => .ok []
  | e :: es =>
    match Lit.value vars e with
    | .error err => .error err
    | .ok v =>
      match valueEntries vars es with
      | .error err => .error err
      | .ok vs => .ok (v :: vs)

/-- The field loop of (*ObjectLit).Value: assign each field's value into
the map under the field's name. -/
def valueFields (vars : String → Option GoValue)
    (acc : List (String × GoValue)) :
    List (Ident × Lit) → Except String (List (String × GoValue))
  | [] => .ok acc
  | (i, fv) :: fs =>
    match Lit.value vars fv with
    | .error err => .error err
    | .ok v => valueFields vars (mapSet acc i.name v) fs

end

mutual

/-- Whether a literal contains a variable reference anywhere inside it. -/
def Lit.hasVar : Lit → Bool
  | .basic _ _ _ => false
  | .listLit es _ => entriesHaveVar es
  | .objectLit fs _ => fieldsHaveVar fs
  | .nullLit _ => false
  | .varRef _ _ => true

/-- hasVar over list-literal entries. -/
def entriesHaveVar : List Lit → Bool
  | [] => false
  | e :: es => e.hasVar || entriesHaveVar es

/-- hasVar over object-literal fields. -/
def fieldsHaveVar : List (Ident × Lit) → Bool
  | [] => false
  | (_, fv) :: fs => fv.hasVar || fieldsHaveVar fs

end

/-- The list-entry loop of the literal parser ( `[` literal* `]` ), with
the recursive literal parse abstracted as `parseLit`. -/
def parseLitEntriesWith (parseLit : P Lit) : Nat → P (List Lit)
  | 0 => fun l => if l.peek = rune ']' then .ok ([], l) else outOfFuel l
  | fuel + 1 => fun l =>
    if l.peek = rune ']' then .ok ([], l)
    else
      match parseLit l with
      | .error e => .error e
      | .ok (entry, l2) =>
        match parseLitEntriesWith parseLit fuel l2 with
        | .error e => .error e
        | .ok (entries, l3) => .ok (entry :: entries, l3)

/-- The object-field loop of the literal parser ( `{` (name `:` literal)*
`}` ), with the recursive literal parse abstracted as `parseLit`. -/
def parseLitFieldsWith (parseLit : P Lit) : Nat → P (List (Ident × Lit))
  | 0 => fun l => if l.peek = rune '}' then .ok ([], l) else outOfFuel l
  | fuel + 1 => fun l =>
    if l.peek = rune '}' then .ok ([], l)
    else
      match ConsumeIdentWithLoc l with
      | .error e => .error e
      | .ok (name, l2) =>
        match ConsumeToken ':' l2 with
        | .error e => .error e
        | .ok (_, l3) =>
          match parseLit l3 with
          | .error e => .error e
          | .ok (fv, l4) =>
            match parseLitFieldsWith parseLit fuel l4 with
            | .error e => .error e
            | .ok (fields, l5) => .ok ((name, fv) :: fields, l5)

/-- Modelled from the spec: common.ParseLiteral (the literal/value parser)
is not under src/; only its callers are.  Spec grammar (§4.2):
scalar-token | null | `[` literal* `]` | `\x7b` (name `:` literal)* `\x7d`
| `$`name, in one of two modes — constant (variables rejected with a
syntactic error) and variable-permitting. -/
def ParseLiteralF : Nat → Bool → P Lit
  | 0, _ => fun l => outOfFuel l
  | fuel + 1, constOnly => fun l =>
    if l.peek = rune '$' then
      if constOnly then SynError ("variable not allowed in constant literal") l
      else
        match ConsumeToken '$' l with
        | .error e => .error e
        | .ok (_, l2) =>
          match ConsumeIdent l2 with
          | .error e => .error e
          | .ok (name, l3) => .ok (.varRef name l.location, l3)
    else if l.peek = rune '[' then
      match ConsumeToken '[' l with
      | .error e => .error e
      | .ok (_, l2) =>
        match parseLitEntriesWith (ParseLiteralF fuel constOnly) fuel l2 with
        | .error e => .error e
        | .ok (entries, l3) =>
          match ConsumeToken ']' l3 with
          | .error e => .error e
          | .ok (_, l4) => .ok (.listLit entries l.location, l4)
    else if l.peek = rune '{' then
      match ConsumeToken '{' l with
      | .error e => .error e
      | .ok (_, l2) =>
        match parseLitFieldsWith (ParseLiteralF fuel constOnly) fuel l2 with
        | .error e => .error e
        | .ok (fields, l3) =>
          match ConsumeToken '}' l3 with
          | .error e => .error e
          | .ok (_, l4) => .ok (.objectLit fields l.location, l4)
    else
      match l.tokens with
      | ⟨.identTok ("null"), loc⟩ :: ts => .ok (.nullLit loc, ⟨ts⟩)
      | ⟨.identTok n, loc⟩ :: ts => .ok (.basic scannerIdent n loc, ⟨ts⟩)
      | ⟨.intTok t, loc⟩ :: ts => .ok (.basic scannerInt t loc, ⟨ts⟩)
      | ⟨.floatTok t, loc⟩ :: ts => .ok (.basic scannerFloat t loc, ⟨ts⟩)
      | ⟨.stringTok t, loc⟩ :: ts => .ok (.basic scannerString t loc, ⟨ts⟩)
      | _ => SynError ("invalid value") l

/-! ### The query-document AST and parser (src/internal/query/query.go,
src/internal/common/directive.go, src/unnamed/part_000) -/

/-- types.Argument: a named literal argument of a directive or field
invocation. -/
structure Argument where
  name : Ident
  value : Lit

/-- types.Directive: an `@name(args)` invocation. -/
structure Directive where
  name : Ident
  args : List Argument

/-- types.InputValue: a variable or argument definition
`name : Type [= default] directives*`. -/
structure InputValue where
  name : Ident
  ty : Ty
  default : Option Lit
  desc : String
  directives : List Directive
  loc : Location
  typeLoc : Location

/-- types.FragmentSpread: `...Name directives*`. -/
structure FragSpread where
  name : Ident
  directives : List Directive
  loc : Location

mutual

/-- types.Selection: a field, an inline fragment, or a fragment spread
(the three implementors of isSelection; parseFieldDef's result is used as
the field selection). -/
inductive Selection where
  | field (f : QField)
  | inlineFragment (f : InlineFrag)
  | fragmentSpread (fs : FragSpread)

/-- The field selection built by parseFieldDef: types.Field's Alias, Name,
Arguments, Directives, Selections and SelectionSetLoc (its Type and Desc
are never touched by the query parser). -/
inductive QField where
  | mk (Alias : Ident) (Name : Ident) (arguments : List InputValue)
      (directives : List Directive) (selections : List Selection)
      (selectionSetLoc : Location)

/-- types.InlineFragment: the embedded Fragment's On type condition (the
zero TypeName when absent) and Selections, plus Directives and Loc. -/
inductive InlineFrag where
  | mk (On : Ident) (directives : List Directive)
      (selections : List Selection) (loc : Location)

end

/-- The Alias field of a parsed field selection. -/
def QField.Alias : QField → Ident
  | ⟨a, _, _, _, _, _⟩ => a

/-- The Name field of a parsed field selection. -/
def QField.Name : QField → Ident
  | ⟨_, n, _, _, _, _⟩ => n

/-- The On type condition of an inline fragment. -/
def InlineFrag.On : InlineFrag → Ident
  | ⟨o, _, _, _⟩ => o

/-- types.Operation: kind, optional name, variable definitions, selection
set, directives and location. -/
structure Operation where
  opType : String
  name : Ident
  vars : List InputValue
  selections : List Selection
  directives : List Directive
  loc : Location

/-- types.FragmentDecl: the embedded Fragment (On, Selections) plus Name,
Directives and Loc. -/
structure FragmentDecl where
  On : Ident
  selections : List Selection
  name : Ident
  directives : List Directive
  loc : Location

/-- types.Document: the operations and fragment declarations of a query
document. -/
structure Document where
  operations : List Operation
  fragments : List FragmentDecl

/-- The zero value of types.Ident (an absent name or type condition). -/
def zeroIdent : Ident := ⟨"", ⟨0, 0⟩⟩

/-- The argument loop of common.ParseArguments (src/unnamed/part_000):
`name : literal` pairs until the closing parenthesis. -/
def parseArgsLoopF (litFuel : Nat) : Nat → P (List Argument)
  | 0 => fun l => if l.peek = rune ')' then .ok ([], l) else outOfFuel l
  | n + 1 => fun l =>
    if l.peek = rune ')' then .ok ([], l)
    else
      match ConsumeIdentWithLoc l with
      | .error e => .error e
      | .ok (name, l2) =>
        match ConsumeToken ':' l2 with
        | .error e => .error e
        | .ok (_, l3) =>
          match ParseLiteralF litFuel false l3 with
          | .error e => .error e
          | .ok (value, l4) =>
            match parseArgsLoopF litFuel n l4 with
            | .error e => .error e
            | .ok (args, l5) => .ok (⟨name, value⟩ :: args, l5)

/-- common.ParseArguments (src/unnamed/part_000): `(` (name `:` literal)*
`)`, literals in variable-permitting mode. -/
def ParseArgumentsF (fuel : Nat) : P (List Argument) := fun l =>
  match ConsumeToken '(' l with
  | .error e => .error e
  | .ok (_, l2) =>
    match parseArgsLoopF fuel fuel l2 with
    | .error e => .error e
    | .ok (args, l3) =>
      match ConsumeToken ')' l3 with
      | .error e => .error e
      | .ok (_, l4) => .ok (args, l4)

/-- The `@`-loop of common.ParseDirectives (src/internal/common/
directive.go): consume `@`, the name (with its column decremented by one,
as the code does), and an optional argument list, repeatedly. -/
def parseDirsLoopF (fuel : Nat) : Nat → P (List Directive)
  | 0 => fun l => if l.peek = rune '@' then outOfFuel l else .ok ([], l)
  | n + 1 => fun l =>
    if l.peek = rune '@' then
      match ConsumeToken '@' l with
      | .error e => .error e
      | .ok (_, l2) =>
        match ConsumeIdentWithLoc l2 with
        | .error e => .error e
        | .ok (nm, l3) =>
          let nm : Ident := ⟨nm.name, ⟨nm.loc.line, nm.loc.column - 1⟩⟩
          match (if l3.peek = rune '(' then ParseArgumentsF fuel l3
            else .ok ([], l3)) with
          | .error e => .error e
          | .ok (args, l4) =>
            match parseDirsLoopF fuel n l4 with
            | .error e => .error e
            | .ok (dirs, l5) => .ok (⟨nm, args⟩ :: dirs, l5)
    else .ok ([], l)

/-- common.ParseDirectives: zero or more `@name(args)` suffixes, in
order. -/
def ParseDirectivesF (fuel : Nat) : P (List Directive) :=
  parseDirsLoopF fuel fuel

/-- common.ParseInputValue (src/unnamed/part_000): location, description,
name, `:`, type location, type, optional `=` constant default, then
directives. -/
def ParseInputValueF (fuel : Nat) : P InputValue := fun l =>
  let loc := l.location
  match DescComment l with
  | .error e => .error e
  | .ok (desc, l1) =>
    match ConsumeIdentWithLoc l1 with
    | .error e => .error e
    | .ok (name, l2) =>
      match ConsumeToken ':' l2 with
      | .error e => .error e
      | .ok (_, l3) =>
        let typeLoc := l3.location
        match ParseTypeF fuel l3 with
        | .error e => .error e
        | .ok (ty, l4) =>
          match (if l4.peek = rune '=' then
              match ConsumeToken '=' l4 with
              | .error e => .error e
              | .ok (_, l5) =>
                match ParseLiteralF fuel true l5 with
                | .error e => .error e
                | .ok (dv, l6) => .ok (some dv, l6)
            else .ok (none, l4) :
              Except QueryError (Option Lit × Lexer)) with
          | .error e => .error e
          | .ok (dv, l5) =>
            match ParseDirectivesF fuel l5 with
            | .error e => .error e
            | .ok (dirs, l6) => .ok (⟨name, ty, dv, desc, dirs, loc, typeLoc⟩, l6)

/-- The loop of the field-argument list parser: InputValues until the
closing parenthesis. -/
def parseInputValuesLoopF (fuel : Nat) : Nat → P (List InputValue)
  | 0 => fun l => if l.peek = rune ')' then .ok ([], l) else outOfFuel l
  | n + 1 => fun l =>
    if l.peek = rune ')' then .ok ([], l)
    else
      match ParseInputValueF fuel l with
      | .error e => .error e
      | .ok (iv, l2) =>
        match parseInputValuesLoopF fuel n l2 with
        | .error e => .error e
        | .ok (ivs, l3) => .ok (iv :: ivs, l3)

/-- Modelled from the spec: common.ParseArgumentsDef (called by
parseFieldDef, producing an ArgumentsDefinition) is not under src/.  Per
the spec (§4.5) argument lists reuse the InputValue grammar, wrapped in
parentheses. -/
def ParseArgumentsDefF (fuel : Nat) : P (List InputValue) := fun l =>
  match ConsumeToken '(' l with
  | .error e => .error e
  | .ok (_, l2) =>
    match parseInputValuesLoopF fuel fuel l2 with
    | .error e => .error e
    | .ok (ivs, l3) =>
      match ConsumeToken ')' l3 with
      | .error e => .error e
      | .ok (_, l4) => .ok (ivs, l4)

/-- The selection loop of parseSelectionSet: selections until the closing
brace, with the recursive selection parse abstracted as `parseSel`. -/
def selectionLoopWith (parseSel : P Selection) : Nat → P (List Selection)
  | 0 => fun l => if l.peek = rune '}' then .ok ([], l) else outOfFuel l
  | n + 1 => fun l =>
    if l.peek = rune '}' then .ok ([], l)
    else
      match parseSel l with
      | .error e => .error e
      | .ok (sel, l2) =>
        match selectionLoopWith parseSel n l2 with
        | .error e => .error e
        | .ok (sels, l3) => .ok (sel :: sels, l3)

/-- query.parseSelectionSet: `\x7b` selection* `\x7d`. -/
def parseSelectionSetWith (parseSel : P Selection) (fuel : Nat) :
    P (List Selection) := fun l =>
  match ConsumeToken '{' l with
  | .error e => .error e
  | .ok (_, l2) =>
    match selectionLoopWith parseSel fuel l2 with
    | .error e => .error e
    | .ok (sels, l3) =>
      match ConsumeToken '}' l3 with
      | .error e => .error e
      | .ok (_, l4) => .ok (sels, l4)

/-- The remainder of query.parseFieldDef once Alias and Name are fixed:
the optional argument list, directives, and optional nested selection set
(absent ones keep their Go zero values). -/
def parseFieldDefTail (parseSel : P Selection) (fuel : Nat)
    (alias0 nm : Ident) : P QField := fun l3 =>
  match (if l3.peek = rune '(' then ParseArgumentsDefF fuel l3
    else .ok ([], l3)) with
  | .error e => .error e
  | .ok (args, l4) =>
    match ParseDirectivesF fuel l4 with
    | .error e => .error e
    | .ok (dirs, l5) =>
      if l5.peek = rune '{' then
        match parseSelectionSetWith parseSel fuel l5 with
        | .error e => .error e
        | .ok (sels, l6) =>
          .ok (⟨alias0, nm, args, dirs, sels, l5.location⟩, l6)
      else .ok (⟨alias0, nm, args, dirs, [], ⟨0, 0⟩⟩, l5)

/-- query.parseFieldDef: consume the alias identifier, let the name default
to it, re-read the name after a colon when one follows, then the rest of
the field. -/
def parseFieldDefWith (parseSel : P Selection) (fuel : Nat) : P QField :=
  fun l =>
  match ConsumeIdentWithLoc l with
  | .error e => .error e
  | .ok (alias0, l2) =>
    if l2.peek = rune ':' then
      match ConsumeToken ':' l2 with
      | .error e => .error e
      | .ok (_, l3) =>
        match ConsumeIdentWithLoc l3 with
        | .error e => .error e
        | .ok (nm, l4) => parseFieldDefTail parseSel fuel alias0 nm l4
    else parseFieldDefTail parseSel fuel alias0 alias0 l2

/-- The shared tail of query.parseSpread's inline-fragment paths:
directives, then the mandatory selection set. -/
def inlineFragTailWith (parseSel : P Selection) (fuel : Nat)
    (onIdent : Ident) (loc : Location) : P Selection := fun l =>
  match ParseDirectivesF fuel l with
  | .error e => .error e
  | .ok (dirs, l2) =>
    match parseSelectionSetWith parseSel fuel l2 with
    | .error e => .error e
    | .ok (sels, l3) => .ok (.inlineFragment ⟨onIdent, dirs, sels, loc⟩, l3)

/-- query.parseSpread: three dots, then an identifier other than `on` makes
a FragmentSpread, `on` plus a type name makes an InlineFragment with a type
condition, and anything else (directives or the selection set directly)
makes an InlineFragment whose On stays the zero TypeName. -/
def parseSpreadWith (parseSel : P Selection) (fuel : Nat) : P Selection :=
  fun l =>
  let loc := l.location
  match ConsumeToken '.' l with
  | .error e => .error e
  | .ok (_, l1) =>
    match ConsumeToken '.' l1 with
    | .error e => .error e
    | .ok (_, l2) =>
      match ConsumeToken '.' l2 with
      | .error e => .error e
      | .ok (_, l3) =>
        if l3.peek = scannerIdent then
          match ConsumeIdentWithLoc l3 with
          | .error e => .error e
          | .ok (ident, l4) =>
            if ident.name ≠ "on" then
              match ParseDirectivesF fuel l4 with
              | .error e => .error e
              | .ok (dirs, l5) =>
                .ok (.fragmentSpread ⟨ident, dirs, loc⟩, l5)
            else
              match ConsumeIdentWithLoc l4 with
              | .error e => .error e
              | .ok (onIdent, l5) =>
                inlineFragTailWith parseSel fuel onIdent loc l5
        else inlineFragTailWith parseSel fuel zeroIdent loc l3

/-- query.parseSelection: a dot starts a spread, anything else a field
selection (used as a Selection). -/
def parseSelectionF : Nat → P Selection
  | 0 => fun l => outOfFuel l
  | fuel + 1 => fun l =>
    if l.peek = rune '.' then parseSpreadWith (parseSelectionF fuel) fuel l
    else
      match parseFieldDefWith (parseSelectionF fuel) fuel l with
      | .error e => .error e
      | .ok (f, l2) => .ok (.field f, l2)

/-- query.parseSelectionSet at a given fuel. -/
def parseSelectionSetF (fuel : Nat) : P (List Selection) :=
  parseSelectionSetWith (parseSelectionF fuel) fuel

/-- query.parseFieldDef at a given fuel. -/
def parseFieldDefF (fuel : Nat) : P QField :=
  parseFieldDefWith (parseSelectionF fuel) fuel

/-- query.parseSpread at a given fuel. -/
def parseSpreadF (fuel : Nat) : P Selection :=
  parseSpreadWith (parseSelectionF fuel) fuel

/-- The variable-definition loop of query.parseOperation: `$` then an
InputValue whose Loc is reset to the position of the dollar, until the
closing parenthesis. -/
def parseVarsLoopF (fuel : Nat) : Nat → P (List InputValue)
  | 0 => fun l => if l.peek = rune ')' then .ok ([], l) else outOfFuel l
  | n + 1 => fun l =>
    if l.peek = rune ')' then .ok ([], l)
    else
      let loc := l.location
      match ConsumeToken '$' l with
      | .error e => .error e
      | .ok (_, l2) =>
        match ParseInputValueF fuel l2 with
        | .error e => .error e
        | .ok (iv, l3) =>
          let iv := { iv with loc := loc }
          match parseVarsLoopF fuel n l3 with
          | .error e => .error e
          | .ok (ivs, l4) => .ok (iv :: ivs, l4)

/-- query.parseOperation: Name.Loc defaults to the current location, an
identifier (when present) names the operation, then directives, an optional
parenthesized variable-definition list, and the mandatory selection set.
The operation's own Loc stays zero (the caller sets it only for `query`). -/
def parseOperationF (fuel : Nat) (opType : String) : P Operation := fun l =>
  let nameLoc := l.location
  match (if l.peek = scannerIdent then ConsumeIdentWithLoc l
    else .ok (⟨"", nameLoc⟩, l)) with
  | .error e => .error e
  | .ok (name, l2) =>
    match ParseDirectivesF fuel l2 with
    | .error e => .error e
    | .ok (dirs, l3) =>
      match (if l3.peek = rune '(' then
          match ConsumeToken '(' l3 with
          | .error e => .error e
          | .ok (_, l4) =>
            match parseVarsLoopF fuel fuel l4 with
            | .error e => .error e
            | .ok (vars, l5) =>
              match ConsumeToken ')' l5 with
              | .error e => .error e
              | .ok (_, l6) => .ok (vars, l6)
        else .ok ([], l3) :
          Except QueryError (List InputValue × Lexer)) with
      | .error e => .error e
      | .ok (vars, l4) =>
        match parseSelectionSetF fuel l4 with
        | .error e => .error e
        | .ok (sels, l5) => .ok (⟨opType, name, vars, sels, dirs, ⟨0, 0⟩⟩, l5)

/-- query.parseFragment: name, the `on` keyword, the type condition,
directives and the selection set (Loc is set by the caller). -/
def parseFragmentF (fuel : Nat) : P FragmentDecl := fun l =>
  match ConsumeIdentWithLoc l with
  | .error e => .error e
  | .ok (name, l2) =>
    match ConsumeKeyword ("on") l2 with
    | .error e => .error e
    | .ok (_, l3) =>
      match ConsumeIdentWithLoc l3 with
      | .error e => .error e
      | .ok (onIdent, l4) =>
        match ParseDirectivesF fuel l4 with
        | .error e => .error e
        | .ok (dirs, l5) =>
          match parseSelectionSetF fuel l5 with
          | .error e => .error e
          | .ok (sels, l6) => .ok (⟨onIdent, sels, name, dirs, ⟨0, 0⟩⟩, l6)

/-- The top-level loop of query.parseDocument: until EOF, a brace starts an
anonymous query operation; otherwise the leading identifier selects
query/mutation/subscription/fragment, anything else being the
"expecting fragment" syntax error. -/
def parseDocLoopF (fuel : Nat) : Nat → Document → P Document
  | 0, d => fun l => if l.peek = scannerEOF then .ok (d, l) else outOfFuel l
  | n + 1, d => fun l =>
    if l.peek = scannerEOF then .ok (d, l)
    else if l.peek = rune '{' then
      let loc := l.location
      match parseSelectionSetF fuel l with
      | .error e => .error e
      | .ok (sels, l2) =>
        parseDocLoopF fuel n
          ⟨d.operations ++ [⟨"QUERY", zeroIdent, [], sels, [], loc⟩],
            d.fragments⟩ l2
    else
      let loc := l.location
      match ConsumeIdent l with
      | .error e => .error e
      | .ok (x, l2) =>
        if x = "query" then
          match parseOperationF fuel ("QUERY") l2 with
          | .error e => .error e
          | .ok (op, l3) =>
            parseDocLoopF fuel n
              ⟨d.operations ++ [{ op with loc := loc }], d.fragments⟩ l3
        else if x = "mutation" then
          match parseOperationF fuel ("MUTATION") l2 with
          | .error e => .error e
          | .ok (op, l3) =>
            parseDocLoopF fuel n ⟨d.operations ++ [op], d.fragments⟩ l3
        else if x = "subscription" then
          match parseOperationF fuel ("SUBSCRIPTION") l2 with
          | .error e => .error e
          | .ok (op, l3) =>
            parseDocLoopF fuel n ⟨d.operations ++ [op], d.fragments⟩ l3
        else if x = "fragment" then
          match parseFragmentF fuel l2 with
          | .error e => .error e
          | .ok (frag, l3) =>
            parseDocLoopF fuel n
              ⟨d.operations, d.fragments ++ [{ frag with loc := loc }]⟩ l3
        else SynError ("unexpected ident, expecting fragment") l2

/-- query.parseDocument at a given fuel, starting from the empty
document. -/
def parseDocumentF (fuel : Nat) : P Document := fun l =>
  parseDocLoopF fuel fuel ⟨[], []⟩ l

/-- query.Parse: run parseDocument under CatchSyntaxError — a lexer panic
becomes (nil, err), success becomes (doc, nil). -/
def queryParse (fuel : Nat) (l : Lexer) :
    Option Document × Option QueryError :=
  match parseDocumentF fuel l with
  | .error e => (none, some e)
  | .ok (d, _) => (some d, none)

/-- parser.Parse (src/parser/parser.go): builds an empty schema, runs
schema.ParseSchema (not under src/, so its outcome — normal return or
escaping lexer panic — is the parameter here), and then returns the schema
with a nil error unconditionally (its own comment reads
"TODO where are the errors").  No CatchSyntaxError intervenes, so a panic
escapes rather than becoming a result. -/
def parserParse (parseSchemaOutcome : Except QueryError Schema) :
    Except QueryError (Schema × Option QueryError) :=
  match parseSchemaOutcome with
  | .error e => .error e
  | .ok s => .ok (s, none)

/-- A resolver table that is self- and mutually-referential at the schema
level: A and B are objects whose fields reference one another (and A itself);
the table maps each name to its declaration by a single lookup. -/
def mutualTable : Resolver := fun n =>
  if n = "A" then some (.named ⟨.object, "A"⟩)
  else if n = "B" then some (.named ⟨.object, "B"⟩)
  else none

/-- The input of the C2 counterexample: a bare reference to the name "A". -/
def c2Tree : Ty := .typeName ⟨"A", ⟨1, 1⟩⟩

/-- The resolver of the C2 counterexample: it answers every lookup of "A"
with a declared scalar named "B" — a declared type for every name occurring
in the tree, but not one whose name equals the reference's identifier. -/
def c2Resolver : Resolver := fun n =>
  if n = "A" then some (.named ⟨.scalar, "B"⟩) else none

/-- Claim C6: the grammar of ParseType over every token stream — a
bracketed type is a List wrapping the inner parse; a bare name is an
unresolved TypeName; a bang wraps exactly the immediately preceding type in
a single NonNull; a second bang is left unconsumed by ParseType and a
surrounding expectation of any other token then fails with the normal
token-expectation error on it. -/
theorem parseType_grammar :
    (∀ fuel ts bloc t cloc rest,
      ParseTypeF fuel ⟨ts⟩ = .ok (t, ⟨⟨.punct ']', cloc⟩ :: rest⟩) →
      Lexer.peek ⟨rest⟩ ≠ rune '!' →
      ParseTypeF (fuel + 1) ⟨⟨.punct '[', bloc⟩ :: ts⟩ = .ok (.list t, ⟨rest⟩)) ∧
    (∀ fuel n nloc rest, Lexer.peek ⟨rest⟩ ≠ rune '!' →
      ParseTypeF fuel ⟨⟨.identTok n, nloc⟩ :: rest⟩ =
        .ok (.typeName ⟨n, nloc⟩, ⟨rest⟩)) ∧
    (∀ fuel n nloc bloc rest,
      ParseTypeF fuel ⟨⟨.identTok n, nloc⟩ :: ⟨.punct '!', bloc⟩ :: rest⟩ =
        .ok (.nonNull (.typeName ⟨n, nloc⟩), ⟨rest⟩)) ∧
    (∀ fuel n nloc bloc bloc2 rest,
      ParseTypeF fuel
          ⟨⟨.identTok n, nloc⟩ :: ⟨.punct '!', bloc⟩ :: ⟨.punct '!', bloc2⟩ :: rest⟩ =
        .ok (.nonNull (.typeName ⟨n, nloc⟩), ⟨⟨.punct '!', bloc2⟩ :: rest⟩)) ∧
    (∀ (c : Char) bloc rest, rune c ≠ rune '!' →
      ∃ e, ConsumeToken c ⟨⟨.punct '!', bloc⟩ :: rest⟩ = .error e) := by
  refine ⟨?_, ?_, ?_, ?_, ?_⟩
  · intro fuel ts bloc t cloc rest h hne
    simp [Lexer.peek, TokenKind.rune, rune, scannerIdent, scannerEOF, scannerInt,
      scannerFloat, scannerString] at hne
    simp [ParseTypeF, parseTypeStep, parseNullTypeWith, ConsumeToken, Lexer.peek,
      TokenKind.rune, rune, scannerIdent, scannerEOF, scannerInt, scannerFloat,
      scannerString, h, hne]
  · intro fuel n nloc rest hne
    simp [Lexer.peek, TokenKind.rune, rune, scannerIdent, scannerEOF, scannerInt,
      scannerFloat, scannerString] at hne
    cases fuel <;>
      simp [ParseTypeF, parseTypeStep, parseNullTypeWith, ConsumeIdentWithLoc,
        Lexer.peek, TokenKind.rune, rune, scannerIdent, scannerEOF, scannerInt,
        scannerFloat, scannerString, hne]
  · intro fuel n nloc bloc rest
    cases fuel <;>
      simp [ParseTypeF, parseTypeStep, parseNullTypeWith, ConsumeIdentWithLoc,
        ConsumeToken, Lexer.peek, TokenKind.rune, rune, scannerIdent, scannerEOF,
        scannerInt, scannerFloat, scannerString]
  · intro fuel n nloc bloc bloc2 rest
    cases fuel <;>
      simp [ParseTypeF, parseTypeStep, parseNullTypeWith, ConsumeIdentWithLoc,
        ConsumeToken, Lexer.peek, TokenKind.rune, rune, scannerIdent, scannerEOF,
        scannerInt, scannerFloat, scannerString]
  · intro c bloc rest hne
    refine ⟨⟨"unexpected token", "", [bloc]⟩, ?_⟩
    simp only [ConsumeToken, TokenKind.rune]
    rw [if_neg (by simpa using fun h => hne h.symm)]
    rfl

/-- Witness for C6 at concrete inputs: the bracket conjunct applied to the
stream for [N], and the bare-name conjunct applied to the stream for N. -/
theorem parseType_grammar_witness :
    ParseTypeF 2
        ⟨[⟨.punct '[', ⟨1, 1⟩⟩, ⟨.identTok ("N"), ⟨1, 2⟩⟩, ⟨.punct ']', ⟨1, 3⟩⟩]⟩ =
      .ok (.list (.typeName ⟨"N", ⟨1, 2⟩⟩), ⟨[]⟩) ∧
    ParseTypeF 0 ⟨[⟨.identTok ("N"), ⟨1, 1⟩⟩]⟩ =
      .ok (.typeName ⟨"N", ⟨1, 1⟩⟩, ⟨[]⟩) ∧
    (∃ e, ConsumeToken '$' ⟨[⟨.punct '!', ⟨1, 4⟩⟩]⟩ = .error e) :=
  ⟨parseType_grammar.1 1 [⟨.identTok ("N"), ⟨1, 2⟩⟩, ⟨.punct ']', ⟨1, 3⟩⟩]
      ⟨1, 1⟩ (.typeName ⟨"N", ⟨1, 2⟩⟩) ⟨1, 3⟩ [] rfl (by decide),
    parseType_grammar.2.1 0 "N" ⟨1, 1⟩ [] (by decide),
    parseType_grammar.2.2.2.2 '$' ⟨1, 4⟩ [] (by decide)⟩

/-- Claim C5: for the four type-reference shapes Name, [Name], Name! and
[[Name!]!], parsing the token stream of the text, then resolving against a
resolver that maps the name to a declared type printing as that name, then
printing with the String method yields exactly the original text. -/
theorem parseType_print_roundtrip (n : String) (resolver : Resolver)
    (d : NamedDecl) (hres : resolver n = some (.named d)) (hname : d.name = n) :
    (∃ t u, ParseTypeF 4 ⟨[⟨.identTok n, ⟨1, 1⟩⟩]⟩ = .ok (t, ⟨[]⟩) ∧
      ResolveType t resolver = .ok u ∧ u.str = some n) ∧
    (∃ t u, ParseTypeF 4
        ⟨[⟨.punct '[', ⟨1, 1⟩⟩, ⟨.identTok n, ⟨1, 2⟩⟩, ⟨.punct ']', ⟨1, 3⟩⟩]⟩ =
        .ok (t, ⟨[]⟩) ∧
      ResolveType t resolver = .ok u ∧ u.str = some ("[" ++ n ++ "]")) ∧
    (∃ t u, ParseTypeF 4 ⟨[⟨.identTok n, ⟨1, 1⟩⟩, ⟨.punct '!', ⟨1, 2⟩⟩]⟩ =
        .ok (t, ⟨[]⟩) ∧
      ResolveType t resolver = .ok u ∧ u.str = some (n ++ "!")) ∧
    (∃ t u, ParseTypeF 4
        ⟨[⟨.punct '[', ⟨1, 1⟩⟩, ⟨.punct '[', ⟨1, 2⟩⟩, ⟨.identTok n, ⟨1, 3⟩⟩,
          ⟨.punct '!', ⟨1, 4⟩⟩, ⟨.punct ']', ⟨1, 5⟩⟩, ⟨.punct '!', ⟨1, 6⟩⟩,
          ⟨.punct ']', ⟨1, 7⟩⟩]⟩ =
        .ok (t, ⟨[]⟩) ∧
      ResolveType t resolver = .ok u ∧ u.str = some ("[[" ++ n ++ "!]!]")) := by
  refine ⟨⟨.typeName ⟨n, ⟨1, 1⟩⟩, .named d, rfl, ?_, ?_⟩,
    ⟨.list (.typeName ⟨n, ⟨1, 2⟩⟩), .list (.named d), rfl, ?_, ?_⟩,
    ⟨.nonNull (.typeName ⟨n, ⟨1, 1⟩⟩), .nonNull (.named d), rfl, ?_, ?_⟩,
    ⟨.list (.nonNull (.list (.nonNull (.typeName ⟨n, ⟨1, 3⟩⟩)))),
      .list (.nonNull (.list (.nonNull (.named d)))), rfl, ?_, ?_⟩⟩
  · simp [ResolveType, hres]
  · simp [Ty.str, hname]
  · simp [ResolveType, hres]
  · simp [Ty.str, hname]
  · simp [ResolveType, hres]
  · simp [Ty.str, hname]
  · simp [ResolveType, hres]
  · simp only [Ty.str, Option.map_some', hname]
    refine congrArg some ?_
    apply String.ext
    simp [String.data_append]

/-- Witness for C5 at a concrete input: the name "Name" resolved by a
table mapping it to a declared scalar of the same name; the first
round-trip conjunct. -/
theorem parseType_print_roundtrip_witness :
    ∃ t u, ParseTypeF 4 ⟨[⟨.identTok ("Name"), ⟨1, 1⟩⟩]⟩ = .ok (t, ⟨[]⟩) ∧
      ResolveType t
          (fun m => if m = "Name" then some (.named ⟨.scalar, "Name"⟩) else none) =
        .ok u ∧
      u.str = some ("Name") :=
  (parseType_print_roundtrip ("Name")
    (fun m => if m = "Name" then some (.named ⟨.scalar, "Name"⟩) else none)
    ⟨.scalar, "Name"⟩ (by simp) rfl).1

/-- Claim C1: when the reference tree's Named leaf carries a name the
resolver maps to no declared type (Go nil), ResolveType fails with the
"Unknown type" error citing exactly that name, rule-tagged "KnownTypeNames",
whose single location is the one recorded in the Named node. -/
theorem resolveType_unknown_name (t : Ty) (resolver : Resolver) (i : Ident)
    (hleaf : t.leaf = .typeName i) (hres : resolver i.name = none) :
    ResolveType t resolver =
      .error ⟨unknownTypeMessage i.name, "KnownTypeNames", [i.loc]⟩ := by
  induction t with
  | list t ih =>
    simp only [Ty.leaf] at hleaf
    simp only [ResolveType, ih hleaf]
  | nonNull t ih =>
    simp only [Ty.leaf] at hleaf
    simp only [ResolveType, ih hleaf]
  | typeName j =>
    simp only [Ty.leaf, Ty.typeName.injEq] at hleaf
    subst hleaf
    simp only [ResolveType, hres]
  | named d =>
    simp only [Ty.leaf] at hleaf
    exact Ty.noConfusion hleaf

/-- Witness for C1 at a concrete input: a list-wrapped reference to the
undeclared name "Unknown" against the empty resolver. -/
theorem resolveType_unknown_name_witness :
    ResolveType (.list (.typeName ⟨"Unknown", ⟨3, 5⟩⟩)) (fun _ => none) =
      .error ⟨unknownTypeMessage ("Unknown"), "KnownTypeNames", [⟨3, 5⟩]⟩ :=
  resolveType_unknown_name _ _ ⟨"Unknown", ⟨3, 5⟩⟩ rfl rfl

/-- Counterexample to claim C2 as stated: the resolver returns a declared
type for every name occurring in the tree, ResolveType succeeds, yet the
Named leaf is replaced by a declaration whose name "B" differs from the
leaf's original identifier "A" — ResolveType trusts the resolver and never
compares the returned declaration's name with the looked-up name. -/
theorem resolveType_rename_counterexample :
    (∀ i : Ident, Ty.leaf c2Tree = .typeName i →
      ∃ d : NamedDecl, c2Resolver i.name = some (.named d)) ∧
    ResolveType c2Tree c2Resolver = .ok (.named ⟨.scalar, "B"⟩) ∧
    ¬ ("B" : String) = "A" := by
  refine ⟨?_, rfl, by decide⟩
  intro i hi
  simp only [c2Tree, Ty.leaf, Ty.typeName.injEq] at hi
  subst hi
  exact ⟨⟨.scalar, "B"⟩, rfl⟩

/-- Claim C2 (amended): when the resolver answers every name occurring in
the tree with a declared type *of that same name* (as Schema.Resolve over a
name-keyed table does), ResolveType succeeds, the result keeps exactly the
List/NonNull wrapper spine of the input, the Named leaf is replaced by the
declaration carrying the leaf's original identifier, and an already-resolved
leaf is returned unchanged. -/
theorem resolveType_success (t : Ty) (resolver : Resolver)
    (h : ∀ i : Ident, t.leaf = .typeName i →
      ∃ d : NamedDecl, resolver i.name = some (.named d) ∧ d.name = i.name) :
    ∃ u : Ty, ResolveType t resolver = .ok u ∧
      u.wrapperSpine = t.wrapperSpine ∧
      (∀ i : Ident, t.leaf = .typeName i →
        ∃ d : NamedDecl, u.leaf = .named d ∧ d.name = i.name) ∧
      (∀ d : NamedDecl, t.leaf = .named d → u.leaf = .named d) := by
  induction t with
  | list t ih =>
    simp only [Ty.leaf] at h ⊢
    obtain ⟨u, hu, hspine, hleaf, hnamed⟩ := ih h
    refine ⟨.list u, ?_, ?_, ?_, ?_⟩
    · simp only [ResolveType, hu]
    · simp only [Ty.wrapperSpine, hspine]
    · simpa only [Ty.leaf] using hleaf
    · simpa only [Ty.leaf] using hnamed
  | nonNull t ih =>
    simp only [Ty.leaf] at h ⊢
    obtain ⟨u, hu, hspine, hleaf, hnamed⟩ := ih h
    refine ⟨.nonNull u, ?_, ?_, ?_, ?_⟩
    · simp only [ResolveType, hu]
    · simp only [Ty.wrapperSpine, hspine]
    · simpa only [Ty.leaf] using hleaf
    · simpa only [Ty.leaf] using hnamed
  | typeName i =>
    obtain ⟨d, hd, hname⟩ := h i (by simp only [Ty.leaf])
    refine ⟨.named d, ?_, rfl, ?_, ?_⟩
    · simp only [ResolveType, hd]
    · intro j hj
      simp only [Ty.leaf, Ty.typeName.injEq] at hj
      subst hj
      exact ⟨d, rfl, hname⟩
    · intro d' hd'
      simp only [Ty.leaf] at hd'
      exact Ty.noConfusion hd'
  | named d =>
    refine ⟨.named d, rfl, rfl, ?_, ?_⟩
    · intro j hj
      simp only [Ty.leaf] at hj
      exact Ty.noConfusion hj
    · intro d' hd'
      simp only [Ty.leaf, Ty.named.injEq] at hd'
      subst hd'
      exact rfl

/-- Witness for the amended C2 at a concrete input: resolving [[A!]!]
against a name-consistent table. -/
theorem resolveType_success_witness :
    ∃ u : Ty,
      ResolveType (.list (.nonNull (.list (.nonNull (.typeName ⟨"A", ⟨2, 7⟩⟩)))))
        mutualTable = .ok u ∧
      u.wrapperSpine =
        Ty.wrapperSpine
          (.list (.nonNull (.list (.nonNull (.typeName ⟨"A", ⟨2, 7⟩⟩))))) ∧
      (∀ i : Ident,
        Ty.leaf (.list (.nonNull (.list (.nonNull (.typeName ⟨"A", ⟨2, 7⟩⟩))))) =
          .typeName i →
        ∃ d : NamedDecl, u.leaf = .named d ∧ d.name = i.name) ∧
      (∀ d : NamedDecl,
        Ty.leaf (.list (.nonNull (.list (.nonNull (.typeName ⟨"A", ⟨2, 7⟩⟩))))) =
          .named d →
        u.leaf = .named d) :=
  resolveType_success _ mutualTable
    (by
      intro i hi
      simp only [Ty.leaf, Ty.typeName.injEq] at hi
      subst hi
      exact ⟨⟨.object, "A"⟩, rfl, rfl⟩)

/-- Claim C3: ResolveType's recursion is bounded by the List/NonNull wrapper
depth of its input alone, for every resolver — in particular for resolvers
over self- and mutually-referential tables — because a Named leaf costs a
single table lookup and the looked-up declaration is returned without being
recursed into. -/
theorem resolveType_fuel_bounded (t : Ty) (resolver : Resolver) (fuel : Nat)
    (h : t.wrapperDepth ≤ fuel) :
    ResolveTypeFuel fuel t resolver = some (ResolveType t resolver) := by
  induction t generalizing fuel with
  | list t ih =>
    cases fuel with
    | zero => simp only [Ty.wrapperDepth] at h; omega
    | succ fuel =>
      have hd : t.wrapperDepth ≤ fuel := by
        simp only [Ty.wrapperDepth] at h; omega
      simp only [ResolveTypeFuel, ih fuel hd, ResolveType]
      cases ResolveType t resolver <;> rfl
  | nonNull t ih =>
    cases fuel with
    | zero => simp only [Ty.wrapperDepth] at h; omega
    | succ fuel =>
      have hd : t.wrapperDepth ≤ fuel := by
        simp only [Ty.wrapperDepth] at h; omega
      simp only [ResolveTypeFuel, ih fuel hd, ResolveType]
      cases ResolveType t resolver <;> rfl
  | typeName i =>
    cases fuel <;> rfl
  | named d =>
    cases fuel <;> rfl

/-- Witness for C3 at a concrete input: a wrapped self-reference resolved
against the mutually-referential table, with fuel equal to the wrapper
depth. -/
theorem resolveType_fuel_bounded_witness :
    Ty.wrapperDepth (.list (.nonNull (.typeName ⟨"A", ⟨4, 9⟩⟩))) ≤ 2 ∧
    ResolveTypeFuel 2 (.list (.nonNull (.typeName ⟨"A", ⟨4, 9⟩⟩))) mutualTable =
      some (ResolveType (.list (.nonNull (.typeName ⟨"A", ⟨4, 9⟩⟩))) mutualTable) :=
  ⟨by decide, resolveType_fuel_bounded _ mutualTable 2 (by decide)⟩

/-- Claim C8: the divergence between the literal evaluators and the claim.
ListLit, ObjectLit and NullLit values do evaluate as described — but
(*BasicLit).Value unconditionally panics ("literal value not implemented
in static context"), so a scalar literal (and any literal containing one) aborts
instead of returning its scalar value. -/
theorem literal_value_divergence :
    Lit.value (fun _ => none) (.basic scannerInt ("1") ⟨1, 1⟩) =
      .error ("literal value not implemented in static context") ∧
    Lit.value (fun _ => none) (.nullLit ⟨1, 1⟩) = .ok .null ∧
    Lit.value (fun _ => none) (.listLit [.nullLit ⟨1, 2⟩] ⟨1, 1⟩) =
      .ok (.list [.null]) ∧
    Lit.value (fun _ => none)
        (.objectLit [(⟨"a", ⟨1, 2⟩⟩, .nullLit ⟨1, 5⟩)] ⟨1, 1⟩) =
      .ok (.object [("a", .null)]) ∧
    Lit.value (fun _ => none) (.listLit [.basic scannerInt ("1") ⟨1, 2⟩] ⟨1, 1⟩) =
      .error ("literal value not implemented in static context") :=
  ⟨rfl, rfl, rfl, rfl, rfl⟩

/-- Helper for C9: every literal produced by the list-entry loop is free of
variable references provided the abstracted literal parse only produces
variable-free literals. -/
theorem parseLitEntriesWith_noVar (parseLit : P Lit)
    (hp : ∀ l lit l2, parseLit l = .ok (lit, l2) → lit.hasVar = false) :
    ∀ loopFuel l lits l2,
      parseLitEntriesWith parseLit loopFuel l = .ok (lits, l2) →
      entriesHaveVar lits = false := by
  intro loopFuel
  induction loopFuel with
  | zero =>
    intro l lits l2 h
    simp only [parseLitEntriesWith] at h
    split at h
    · simp only [Except.ok.injEq, Prod.mk.injEq] at h
      obtain ⟨h1, h2⟩ := h
      subst h1
      rfl
    · exact absurd h (by simp [outOfFuel])
  | succ loopFuel ih =>
    intro l lits l2 h
    simp only [parseLitEntriesWith] at h
    split at h
    · simp only [Except.ok.injEq, Prod.mk.injEq] at h
      obtain ⟨h1, h2⟩ := h
      subst h1
      rfl
    · split at h
      next e hq => exact absurd h (by simp)
      next entry l3 hq =>
        split at h
        next e2 hq2 => exact absurd h (by simp)
        next entries l4 hq2 =>
          simp only [Except.ok.injEq, Prod.mk.injEq] at h
          obtain ⟨h1, h2⟩ := h
          subst h1
          simp [entriesHaveVar, hp _ _ _ hq, ih _ _ _ hq2]

/-- Helper for C9: the same for the object-field loop. -/
theorem parseLitFieldsWith_noVar (parseLit : P Lit)
    (hp : ∀ l lit l2, parseLit l = .ok (lit, l2) → lit.hasVar = false) :
    ∀ loopFuel l fs l2,
      parseLitFieldsWith parseLit loopFuel l = .ok (fs, l2) →
      fieldsHaveVar fs = false := by
  intro loopFuel
  induction loopFuel with
  | zero =>
    intro l fs l2 h
    simp only [parseLitFieldsWith] at h
    split at h
    · simp only [Except.ok.injEq, Prod.mk.injEq] at h
      obtain ⟨h1, h2⟩ := h
      subst h1
      rfl
    · exact absurd h (by simp [outOfFuel])
  | succ loopFuel ih =>
    intro l fs l2 h
    simp only [parseLitFieldsWith] at h
    split at h
    · simp only [Except.ok.injEq, Prod.mk.injEq] at h
      obtain ⟨h1, h2⟩ := h
      subst h1
      rfl
    · split at h
      next e hq => exact absurd h (by simp)
      next name l3 hq =>
        split at h
        next e hq2 => exact absurd h (by simp)
        next u l4 hq2 =>
          split at h
          next e hq3 => exact absurd h (by simp)
          next fv l5 hq3 =>
            split at h
            next e hq4 => exact absurd h (by simp)
            next fields l6 hq4 =>
              simp only [Except.ok.injEq, Prod.mk.injEq] at h
              obtain ⟨h1, h2⟩ := h
              subst h1
              simp [fieldsHaveVar, hp _ _ _ hq3, ih _ _ _ hq4]

/-- Claim C9: a literal parsed in constant mode can never resolve a
variable — the constant-mode parser rejects a variable-reference token with
an error outright, and consequently every literal it does produce contains
no variable reference anywhere. -/
theorem constLiteral_rejects_variable :
    (∀ fuel l, l.peek = rune '$' →
      ∃ e, ParseLiteralF fuel true l = .error e) ∧
    (∀ fuel l lit l2, ParseLiteralF fuel true l = .ok (lit, l2) →
      lit.hasVar = false) := by
  constructor
  · intro fuel l hpk
    cases fuel with
    | zero => exact ⟨⟨"out of fuel", "", [l.location]⟩, rfl⟩
    | succ fuel =>
      exact ⟨⟨"variable not allowed in constant literal", "", [l.location]⟩, by
        simp [ParseLiteralF, hpk, SynError]⟩
  · intro fuel
    induction fuel with
    | zero =>
      intro l lit l2 h
      exact absurd h (by simp [ParseLiteralF, outOfFuel])
    | succ fuel ih =>
      intro l lit l2 h
      simp only [ParseLiteralF] at h
      split at h
      · simp [SynError] at h
      · split at h
        · split at h
          next e hq => exact absurd h (by simp)
          next u l3 hq =>
            split at h
            next e hq2 => exact absurd h (by simp)
            next entries l4 hq2 =>
              split at h
              next e hq3 => exact absurd h (by simp)
              next u2 l5 hq3 =>
                simp only [Except.ok.injEq, Prod.mk.injEq] at h
                obtain ⟨h1, h2⟩ := h
                subst h1
                simpa [Lit.hasVar] using
                  parseLitEntriesWith_noVar _ ih fuel _ _ _ hq2
        · split at h
          · split at h
            next e hq => exact absurd h (by simp)
            next u l3 hq =>
              split at h
              next e hq2 => exact absurd h (by simp)
              next fields l4 hq2 =>
                split at h
                next e hq3 => exact absurd h (by simp)
                next u2 l5 hq3 =>
                  simp only [Except.ok.injEq, Prod.mk.injEq] at h
                  obtain ⟨h1, h2⟩ := h
                  subst h1
                  simpa [Lit.hasVar] using
                    parseLitFieldsWith_noVar _ ih fuel _ _ _ hq2
          · split at h <;>
              first
                | (simp only [Except.ok.injEq, Prod.mk.injEq] at h;
                   obtain ⟨h1, h2⟩ := h; subst h1; rfl)
                | simp [SynError] at h

/-- Witness for C9 at a concrete input: constant-mode parsing of the
variable reference `$x` fails. -/
theorem constLiteral_rejects_variable_witness :
    Lexer.peek ⟨[⟨.punct '$', ⟨1, 1⟩⟩, ⟨.identTok ("x"), ⟨1, 2⟩⟩]⟩ = rune '$' ∧
    ∃ e, ParseLiteralF 3 true ⟨[⟨.punct '$', ⟨1, 1⟩⟩, ⟨.identTok ("x"), ⟨1, 2⟩⟩]⟩ =
      .error e :=
  ⟨by decide,
    constLiteral_rejects_variable.1 3
      ⟨[⟨.punct '$', ⟨1, 1⟩⟩, ⟨.identTok ("x"), ⟨1, 2⟩⟩]⟩ (by decide)⟩

/-- Claim C4: what the two entry points do with errors.  query.Parse (under
CatchSyntaxError) returns either no document with a structured error or a
document with no error — never a partial mix.  parser.Parse, by contrast,
returns a nil error unconditionally whenever ParseSchema returns (its own
comment reads "TODO where are the errors"), and a lexer panic raised inside
ParseSchema escapes uncaught instead of becoming a structured result —
contradicting the claim's second half. -/
theorem parse_entry_points_divergence :
    (∀ fuel l, (∃ e, queryParse fuel l = (none, some e)) ∨
      (∃ d, queryParse fuel l = (some d, none))) ∧
    (∀ s : Schema, parserParse (.ok s) = .ok (s, none)) ∧
    (∀ e : QueryError, parserParse (.error e) = .error e) := by
  refine ⟨?_, fun s => rfl, fun e => rfl⟩
  intro fuel l
  rcases h : parseDocumentF fuel l with e | ⟨d, l2⟩
  · exact .inl ⟨e, by simp [queryParse, h]⟩
  · exact .inr ⟨d, by simp [queryParse, h]⟩

/-- Claim C7: parseSpread's disambiguation after the three dots — an
identifier other than `on` yields a FragmentSpread of that name; `on` plus
a type name yields an InlineFragment whose condition is that type name; a
directly following brace yields an InlineFragment whose condition stays the
zero TypeName.  Each case records the location of the first dot. -/
theorem parseSpread_disambiguation :
    (∀ fuel n nloc d1 d2 d3 rest sel l2,
      n ≠ "on" →
      parseSpreadF fuel
          ⟨⟨.punct '.', d1⟩ :: ⟨.punct '.', d2⟩ :: ⟨.punct '.', d3⟩ ::
            ⟨.identTok n, nloc⟩ :: rest⟩ = .ok (sel, l2) →
      ∃ dirs, sel = .fragmentSpread ⟨⟨n, nloc⟩, dirs, d1⟩) ∧
    (∀ fuel tname tloc oloc d1 d2 d3 rest sel l2,
      parseSpreadF fuel
          ⟨⟨.punct '.', d1⟩ :: ⟨.punct '.', d2⟩ :: ⟨.punct '.', d3⟩ ::
            ⟨.identTok ("on"), oloc⟩ :: ⟨.identTok tname, tloc⟩ :: rest⟩ =
        .ok (sel, l2) →
      ∃ f : InlineFrag, sel = .inlineFragment f ∧ f.On = ⟨tname, tloc⟩) ∧
    (∀ fuel bloc d1 d2 d3 rest sel l2,
      parseSpreadF fuel
          ⟨⟨.punct '.', d1⟩ :: ⟨.punct '.', d2⟩ :: ⟨.punct '.', d3⟩ ::
            ⟨.punct '{', bloc⟩ :: rest⟩ = .ok (sel, l2) →
      ∃ f : InlineFrag, sel = .inlineFragment f ∧ f.On = zeroIdent) := by
  refine ⟨?_, ?_, ?_⟩
  · intro fuel n nloc d1 d2 d3 rest sel l2 hne h
    simp [parseSpreadF, parseSpreadWith, ConsumeToken, ConsumeIdentWithLoc,
      Lexer.peek, Lexer.location, TokenKind.rune, rune, scannerIdent, hne] at h
    split at h
    next e hq => exact absurd h (by simp)
    next dirs l5 hq =>
      simp only [Except.ok.injEq, Prod.mk.injEq] at h
      exact ⟨dirs, h.1.symm⟩
  · intro fuel tname tloc oloc d1 d2 d3 rest sel l2 h
    simp [parseSpreadF, parseSpreadWith, inlineFragTailWith, ConsumeToken,
      ConsumeIdentWithLoc, Lexer.peek, Lexer.location, TokenKind.rune, rune,
      scannerIdent] at h
    split at h
    next e hq => exact absurd h (by simp)
    next dirs l5 hq =>
      split at h
      next e hq2 => exact absurd h (by simp)
      next sels l6 hq2 =>
        simp only [Except.ok.injEq, Prod.mk.injEq] at h
        exact ⟨⟨⟨tname, tloc⟩, dirs, sels, d1⟩, h.1.symm, rfl⟩
  · intro fuel bloc d1 d2 d3 rest sel l2 h
    simp [parseSpreadF, parseSpreadWith, inlineFragTailWith, ConsumeToken,
      ConsumeIdentWithLoc, Lexer.peek, Lexer.location, TokenKind.rune, rune,
      scannerIdent] at h
    split at h
    next e hq => exact absurd h (by simp)
    next dirs l5 hq =>
      split at h
      next e hq2 => exact absurd h (by simp)
      next sels l6 hq2 =>
        simp only [Except.ok.injEq, Prod.mk.injEq] at h
        exact ⟨⟨zeroIdent, dirs, sels, d1⟩, h.1.symm, rfl⟩

/-- Witness for C7 at concrete inputs: `...Frag` parses to a FragmentSpread
named Frag, and `...on User \x7b name \x7d` to an InlineFragment whose
condition is User. -/
theorem parseSpread_disambiguation_witness :
    (∃ sel l2, parseSpreadF 2
        ⟨[⟨.punct '.', ⟨1, 1⟩⟩, ⟨.punct '.', ⟨1, 2⟩⟩, ⟨.punct '.', ⟨1, 3⟩⟩,
          ⟨.identTok ("Frag"), ⟨1, 4⟩⟩]⟩ = .ok (sel, l2) ∧
      ∃ dirs, sel = .fragmentSpread ⟨⟨"Frag", ⟨1, 4⟩⟩, dirs, ⟨1, 1⟩⟩) ∧
    (∃ sel l2, parseSpreadF 2
        ⟨[⟨.punct '.', ⟨1, 1⟩⟩, ⟨.punct '.', ⟨1, 2⟩⟩, ⟨.punct '.', ⟨1, 3⟩⟩,
          ⟨.identTok ("on"), ⟨1, 4⟩⟩, ⟨.identTok ("User"), ⟨1, 7⟩⟩,
          ⟨.punct '{', ⟨1, 12⟩⟩, ⟨.identTok ("name"), ⟨1, 14⟩⟩,
          ⟨.punct '}', ⟨1, 19⟩⟩]⟩ = .ok (sel, l2) ∧
      ∃ f : InlineFrag, sel = .inlineFragment f ∧ f.On = ⟨"User", ⟨1, 7⟩⟩) :=
  ⟨⟨_, _, rfl,
      parseSpread_disambiguation.1 2 "Frag" ⟨1, 4⟩ ⟨1, 1⟩ ⟨1, 2⟩ ⟨1, 3⟩ [] _ _
        (by decide) rfl⟩,
    ⟨_, _, rfl,
      parseSpread_disambiguation.2.1 2 "User" ⟨1, 7⟩ ⟨1, 4⟩ ⟨1, 1⟩ ⟨1, 2⟩ ⟨1, 3⟩
        [⟨.punct '{', ⟨1, 12⟩⟩, ⟨.identTok ("name"), ⟨1, 14⟩⟩,
          ⟨.punct '}', ⟨1, 19⟩⟩] _ _ rfl⟩⟩

/-- Helper for C10: whatever the remainder of the field parses, the
produced field keeps exactly the Alias and Name it was given. -/
theorem parseFieldDefTail_aliasName (parseSel : P Selection) (fuel : Nat)
    (alias0 nm : Ident) :
    ∀ l3 f l2, parseFieldDefTail parseSel fuel alias0 nm l3 = .ok (f, l2) →
      f.Alias = alias0 ∧ f.Name = nm := by
  intro l3 f l2 h
  simp only [parseFieldDefTail] at h
  split at h
  next e hq => exact absurd h (by simp)
  next args l4 hq =>
    split at h
    next e hq2 => exact absurd h (by simp)
    next dirs l5 hq2 =>
      split at h
      · split at h
        next e hq3 => exact absurd h (by simp)
        next sels l6 hq3 =>
          simp only [Except.ok.injEq, Prod.mk.injEq] at h
          obtain ⟨h1, h2⟩ := h
          subst h1
          exact ⟨rfl, rfl⟩
      · simp only [Except.ok.injEq, Prod.mk.injEq] at h
        obtain ⟨h1, h2⟩ := h
        subst h1
        exact ⟨rfl, rfl⟩

/-- Claim C10: every field selection the query parser produces has a
populated Alias — with explicit `alias: name` syntax the Alias is the
identifier before the colon and the Name the identifier after it; without
one, Alias and Name are both the single consumed identifier; and in every
successful parse the Alias is the leading identifier of the field's
tokens. -/
theorem parseFieldDef_alias :
    (∀ fuel a aloc cloc n nloc rest f l2,
      parseFieldDefF fuel
          ⟨⟨.identTok a, aloc⟩ :: ⟨.punct ':', cloc⟩ ::
            ⟨.identTok n, nloc⟩ :: rest⟩ = .ok (f, l2) →
      f.Alias = ⟨a, aloc⟩ ∧ f.Name = ⟨n, nloc⟩) ∧
    (∀ fuel a aloc rest f l2,
      Lexer.peek ⟨rest⟩ ≠ rune ':' →
      parseFieldDefF fuel ⟨⟨.identTok a, aloc⟩ :: rest⟩ = .ok (f, l2) →
      f.Alias = ⟨a, aloc⟩ ∧ f.Name = f.Alias) ∧
    (∀ fuel l f l2,
      parseFieldDefF fuel l = .ok (f, l2) →
      ∃ a aloc rest, l.tokens = ⟨.identTok a, aloc⟩ :: rest ∧
        f.Alias = ⟨a, aloc⟩) := by
  refine ⟨?_, ?_, ?_⟩
  · intro fuel a aloc cloc n nloc rest f l2 h
    simp [parseFieldDefF, parseFieldDefWith, ConsumeIdentWithLoc, ConsumeToken,
      Lexer.peek, TokenKind.rune, rune, scannerIdent] at h
    exact parseFieldDefTail_aliasName _ _ _ _ _ _ _ h
  · intro fuel a aloc rest f l2 hne h
    simp [Lexer.peek, TokenKind.rune, rune, scannerIdent, scannerEOF,
      scannerInt, scannerFloat, scannerString] at hne
    simp [parseFieldDefF, parseFieldDefWith, ConsumeIdentWithLoc, Lexer.peek,
      TokenKind.rune, rune, scannerIdent, scannerEOF, scannerInt, scannerFloat,
      scannerString, hne] at h
    have := parseFieldDefTail_aliasName _ _ _ _ _ _ _ h
    exact ⟨this.1, this.2.trans this.1.symm⟩
  · intro fuel l f l2 h
    simp only [parseFieldDefF, parseFieldDefWith] at h
    rcases l with ⟨tokens⟩
    cases tokens with
    | nil => exact absurd h (by simp [ConsumeIdentWithLoc, SynError])
    | cons t ts =>
      rcases t with ⟨kind, loc⟩
      cases kind with
      | identTok a =>
        simp only [ConsumeIdentWithLoc] at h
        split at h
        · refine ⟨a, loc, ts, rfl, ?_⟩
          split at h
          next e hq => exact absurd h (by simp)
          next u l3 hq =>
            split at h
            next e hq2 => exact absurd h (by simp)
            next nm l4 hq2 =>
              exact (parseFieldDefTail_aliasName _ _ _ _ _ _ _ h).1
        · exact ⟨a, loc, ts, rfl,
            (parseFieldDefTail_aliasName _ _ _ _ _ _ _ h).1⟩
      | punct c => exact absurd h (by simp [ConsumeIdentWithLoc, SynError])
      | intTok t2 => exact absurd h (by simp [ConsumeIdentWithLoc, SynError])
      | floatTok t2 => exact absurd h (by simp [ConsumeIdentWithLoc, SynError])
      | stringTok t2 =>
        exact absurd h (by simp [ConsumeIdentWithLoc, SynError])

/-- Witness for C10 at concrete inputs: `a: name` gives Alias a and Name
name; a bare `name` gives Alias and Name both name. -/
theorem parseFieldDef_alias_witness :
    (∃ f l2, parseFieldDefF 1
        ⟨[⟨.identTok ("a"), ⟨1, 1⟩⟩, ⟨.punct ':', ⟨1, 2⟩⟩,
          ⟨.identTok ("name"), ⟨1, 4⟩⟩]⟩ = .ok (f, l2) ∧
      f.Alias = ⟨"a", ⟨1, 1⟩⟩ ∧ f.Name = ⟨"name", ⟨1, 4⟩⟩) ∧
    (∃ f l2, parseFieldDefF 1 ⟨[⟨.identTok ("name"), ⟨1, 1⟩⟩]⟩ =
        .ok (f, l2) ∧
      f.Alias = ⟨"name", ⟨1, 1⟩⟩ ∧ f.Name = f.Alias) :=
  ⟨⟨_, _, rfl,
      parseFieldDef_alias.1 1 "a" ⟨1, 1⟩ ⟨1, 2⟩ "name" ⟨1, 4⟩ [] _ _ rfl⟩,
    ⟨_, _, rfl,
      parseFieldDef_alias.2.1 1 "name" ⟨1, 1⟩ [] _ _ (by decide) rfl⟩⟩

end GraphQL
